import Mathlib

/-!
# Verification of the pytest-cocotb coordination core

Shallow embedding of the NFS-safe call-once guard (`src/pytest_cocotb/guard.py`)
and the mkdir-based distributed lock (`src/pytest_cocotb/nfs_lock.py`), with
proofs of the specified properties.

Modelling conventions:

* Filesystem marker state for one operation name is a `GuardFS` record
  (`done` marker present?, `failed` marker present with its recorded text?).
* `_create_marker` is modelled both by its state effect and by the syscall
  trace it issues (open / write / fsync file / close / fsync parent dir), so
  that durability claims about the fsync sequence are statable.
* Wall-clock and monotonic times are rationals (the code compares Python
  floats; no claim hinges on rounding, only on order comparisons).
* `os.kill(pid, 0)` is an oracle `Int → ProbeResult` supplied by the
  environment; `os.mkdir` outcomes, clock readings and stale-break outcomes
  during `acquire` polling are an environment-supplied list of `Attempt`s.
* The multi-process behaviour of `ensure_done` is an interleaving transition
  system (`Step`/`Reachable`) over any number `n` of caller processes sharing
  one lock and one marker directory.
-/

namespace PytestCocotb

/-! ## Marker store state (guard.py)

State of the `.locks` directory for a single operation name:
whether the `<name>.done` marker exists, and whether the `<name>.failed`
marker exists together with the error text it records. -/

structure GuardFS where
  done : Bool
  failed : Option String
deriving DecidableEq, Repr

/-! ## Syscall trace of `_create_marker` (guard.py lines 28-37)

`_create_marker(path, content)` opens the file with `O_WRONLY|O_CREAT|O_TRUNC`,
writes `content` iff it is non-empty, fsyncs the file descriptor, closes it,
then fsyncs the parent directory (`_fsync_directory`). -/

inductive FsAction where
  | openCreate (file : String)
  | writeBytes (file : String) (data : String)
  | fsyncFile (file : String)
  | closeFile (file : String)
  | fsyncDir (dir : String)
deriving DecidableEq, Repr

def createMarkerTrace (file parent content : String) : List FsAction :=
  [FsAction.openCreate file]
    ++ (if content = "" then [] else [FsAction.writeBytes file content])
    ++ [FsAction.fsyncFile file, FsAction.closeFile file, FsAction.fsyncDir parent]

/-! ## CallOnce paths (guard.py lines 83-99) -/

structure CallOnce where
  path : String
  name : String
deriving DecidableEq, Repr

def CallOnce.lockDir (c : CallOnce) : String := c.path ++ "/.locks"

def CallOnce.lockPath (c : CallOnce) : String := c.lockDir ++ "/" ++ c.name ++ ".lock"

def CallOnce.doneFile (c : CallOnce) : String := c.lockDir ++ "/" ++ c.name ++ ".done"

def CallOnce.failFile (c : CallOnce) : String := c.lockDir ++ "/" ++ c.name ++ ".failed"

/-! ## Errors raised by `ensure_done` -/

inductive GuardError where
  /-- `RuntimeError(f"Previous execution of {name!r} failed: {msg}")`
  raised when a `failed` marker already exists (guard.py lines 111-118). -/
  | priorFailure (name msg : String)
  /-- The exception raised by the protected callable, re-raised verbatim
  (guard.py line 127). -/
  | opError (msg : String)
deriving DecidableEq, Repr

/-- The message string of a guard error; for `priorFailure` this is the
format string of guard.py line 116-117 (`{name!r}` renders as `'name'`). -/
def GuardError.message : GuardError → String
  | .priorFailure name msg =>
      "Previous execution of \x27" ++ name ++ "\x27 failed: " ++ msg
  | .opError msg => msg

/-! ## The critical section of `ensure_done` (guard.py lines 105-127)

`ensureDoneBody c fn st` executes the body of `ensure_done` that runs while
the `NFSLock` is held, on marker state `st`, where `fn` is the outcome the
protected callable would have if invoked (`Except.ok ()` for normal return,
`Except.error e` for an exception with description `e`).  It returns the new
marker state, the call's result, how many times the callable was invoked, and
the syscall trace of marker creation. -/

instance : DecidableEq (Except GuardError Unit) := fun a b =>
  match a, b with
  | .ok (), .ok () => isTrue rfl
  | .error e, .error f =>
      if h : e = f then isTrue (by rw [h]) else isFalse (by intro hc; cases hc; exact h rfl)
  | .ok _, .error _ => isFalse (by intro hc; cases hc)
  | .error _, .ok _ => isFalse (by intro hc; cases hc)

structure RunResult where
  st : GuardFS
  result : Except GuardError Unit
  fnCalls : Nat
  trace : List FsAction
deriving DecidableEq, Repr

def ensureDoneBody (c : CallOnce) (fn : Except String Unit) (st : GuardFS) :
    RunResult :=
  if st.done then
    -- done marker exists (NFS-safe check): already complete, return
    { st := st, result := .ok (), fnCalls := 0, trace := [] }
  else
    match st.failed with
    | some msg =>
        -- failed marker exists: raise RuntimeError embedding the recorded text
        { st := st, result := .error (.priorFailure c.name msg),
          fnCalls := 0, trace := [] }
    | none =>
        match fn with
        | .ok () =>
            -- fn() returned: create the done marker (empty content)
            { st := { st with done := true }, result := .ok (), fnCalls := 1,
              trace := createMarkerTrace c.doneFile c.lockDir "" }
        | .error e =>
            -- fn() raised e: create the failed marker with str(e), re-raise
            { st := { st with failed := some e }, result := .error (.opError e),
              fnCalls := 1,
              trace := createMarkerTrace c.failFile c.lockDir e }

/-- `CallOnce.clean` (guard.py lines 129-132): unlink both markers with
`missing_ok=True`. -/
def CallOnce.clean (_c : CallOnce) (_st : GuardFS) : GuardFS :=
  { done := false, failed := none }

/-! ## Holder record and staleness (nfs_lock.py)

`holder.info` is JSON `{"hostname": ..., "pid": ..., "timestamp": ...}`.
A parsed record may lack any of the fields (`dict.get` defaults apply in
`_is_stale`), so each field is an `Option`. -/

structure HolderInfo where
  hostname : Option String
  pid : Option Int
  timestamp : Option Rat
deriving DecidableEq, Repr

/-- Outcome of `self._holder_file.read_text()` + `json.loads` in
`_read_holder_info` (nfs_lock.py lines 128-133): the read can fail with
`OSError`, the parse can fail with `JSONDecodeError`, or a JSON object is
obtained. -/
inductive ReadOutcome where
  | osError
  | jsonDecodeError
  | parsed (info : HolderInfo)
deriving DecidableEq, Repr

/-- `NFSLock._read_holder_info`: `None` on `OSError` or `JSONDecodeError`,
otherwise the parsed record. -/
def readHolderInfo : ReadOutcome → Option HolderInfo
  | .osError => none
  | .jsonDecodeError => none
  | .parsed info => some info

/-- Outcome of the `os.kill(pid, 0)` liveness probe in `_is_stale`:
the call succeeds (process exists and is signallable), raises
`ProcessLookupError` (no such process), or raises `PermissionError`
(process exists but owned by another user). -/
inductive ProbeResult where
  | ok
  | noSuchProcess
  | permissionDenied
deriving DecidableEq, Repr

/-- `NFSLock._is_stale` (nfs_lock.py lines 158-176).  `localHost` is
`socket.gethostname()`, `probe` is the `os.kill(pid, 0)` oracle, `now` is
`time.time()`, `staleTimeout` is `self.stale_timeout`. -/
def isStale (localHost : String) (probe : Int → ProbeResult)
    (now staleTimeout : Rat) (info : HolderInfo) : Bool :=
  let hostname := info.hostname.getD ""
  let pid := info.pid.getD (-1)
  let timestamp := info.timestamp.getD 0
  if hostname = localHost then
    -- Same host: check if the process is alive via os.kill(pid, 0).
    match probe pid with
    | .noSuchProcess => true      -- ProcessLookupError: stale
    | .permissionDenied => false  -- PermissionError: exists, not stale
    | .ok => false
  else
    -- Different host: fall back to time-based expiry.
    decide (now - timestamp > staleTimeout)

/-- `NFSLock._try_break_stale` (nfs_lock.py lines 135-156): read the holder
record (`none` → return false); if not stale return false; else unlink the
holder record (errors suppressed) and `os.rmdir` the lock directory —
return true iff the rmdir succeeded (`rmdirOk`). -/
def tryBreakStale (localHost : String) (probe : Int → ProbeResult)
    (now staleTimeout : Rat) (read : ReadOutcome) (rmdirOk : Bool) : Bool :=
  match readHolderInfo read with
  | none => false
  | some info =>
      if isStale localHost probe now staleTimeout info then rmdirOk else false

/-! ## Lock acquisition (nfs_lock.py lines 76-96)

One iteration of the `acquire` polling loop observes: whether `os.mkdir`
succeeds (the directory did not exist), whether `_try_break_stale()` returns
true, and the `time.monotonic()` reading used by the deadline check. -/

structure Attempt where
  now : Rat
  mkdirOk : Bool
  breakOk : Bool
deriving DecidableEq, Repr

inductive AcquireResult where
  | acquired
  | timedOut
  /-- The environment trace ran out while the loop was still polling
  (the real loop would keep spinning). -/
  | stillWaiting
deriving DecidableEq, Repr

/-- The `while True` loop of `acquire`, driven by a finite environment trace.
Per the source: `mkdir` success breaks the loop; on `FileExistsError`, a
successful stale break retries immediately (no deadline check, no sleep);
otherwise the deadline (`time.monotonic() >= deadline`) raises
`NFSLockTimeout`, else sleep and retry. -/
def acquireLoop (deadline : Option Rat) : List Attempt → AcquireResult
  | [] => .stillWaiting
  | a :: rest =>
      if a.mkdirOk then .acquired
      else if a.breakOk then acquireLoop deadline rest
      else
        match deadline with
        | some d => if a.now ≥ d then .timedOut else acquireLoop deadline rest
        | none => acquireLoop deadline rest

/-- `NFSLock.acquire`: `deadline = None if timeout < 0 else monotonic() + timeout`
with `t0` the entry `time.monotonic()` reading, then the polling loop. -/
def NFSLock.acquire (timeout t0 : Rat) (attempts : List Attempt) : AcquireResult :=
  acquireLoop (if timeout < 0 then none else some (t0 + timeout)) attempts

/-! ## Lock release (nfs_lock.py lines 98-104)

State of one lock directory: whether `holder.info` exists and whether the
lock directory itself exists.  The holder record is the only entry ever
created inside the lock directory (`_write_holder_info`), so after the
unlink the directory is empty and `rmdir` fails only if the directory is
already gone. -/

structure LockDirState where
  holderPresent : Bool
  dirPresent : Bool
deriving DecidableEq, Repr

/-- `holder.info.unlink(missing_ok=True)`: removes the record, no error when
it is already absent. -/
def unlinkHolder (st : LockDirState) : Except Unit LockDirState :=
  .ok { st with holderPresent := false }

/-- `os.rmdir(lock_path)`: fails with `OSError` when the directory does not
exist (or is non-empty, i.e. the holder record is still inside). -/
def rmdirLock (st : LockDirState) : Except Unit LockDirState :=
  if st.dirPresent && !st.holderPresent then .ok { st with dirPresent := false }
  else .error ()

/-- `contextlib.suppress(OSError)`: run the action, keep the prior state if
it raised. -/
def suppressOS (st : LockDirState) (act : LockDirState → Except Unit LockDirState) :
    LockDirState :=
  match act st with
  | .ok st2 => st2
  | .error _ => st

/-- `NFSLock.release` (nfs_lock.py lines 98-104): suppress errors around the
holder unlink, then suppress errors around the rmdir.  Returned in `Except`
to make explicit that no exception propagates to the caller. -/
def NFSLock.release (st : LockDirState) : Except Unit LockDirState :=
  .ok (suppressOS (suppressOS st unlinkHolder) rmdirLock)

/-! ## Multi-process interleaving model of `ensure_done`

`n` caller processes share one lock directory and one marker directory for
the same `CallOnce` (same base path and operation name).  Each process runs
`ensure_done`:

* `acquire`: `os.mkdir(lock_path)` succeeds only when no process holds the
  lock (atomic mkdir; a failed mkdir leaves the state unchanged, and a
  stale-break attempt against a live same-host holder returns false by
  `_is_stale`, so failed polls are stutter steps and are omitted);
* inside the critical section the process checks the done marker, then the
  failed marker, then invokes the callable and writes the outcome marker;
* the lock is released on every exit path (`with NFSLock(...)`).

`σ : Except String Unit` is the outcome the protected callable produces when
invoked; `execCount` counts invocations of the callable. -/

inductive PC where
  | idle
  | locked
  | running
  | finished (r : Except GuardError Unit)
deriving DecidableEq

structure SysState (n : Nat) where
  lock : Option (Fin n)
  fs : GuardFS
  execCount : Nat
  pc : Fin n → PC

def initState (n : Nat) : SysState n :=
  { lock := none, fs := { done := false, failed := none }, execCount := 0,
    pc := fun _ => .idle }

inductive Step (c : CallOnce) (σ : Except String Unit) {n : Nat} :
    SysState n → SysState n → Prop
  /-- `os.mkdir` succeeds: the lock directory did not exist. -/
  | acquire {s : SysState n} (i : Fin n)
      (h1 : s.pc i = .idle) (h2 : s.lock = none) :
      Step c σ s { s with lock := some i, pc := Function.update s.pc i .locked }
  /-- guard.py lines 106-108: done marker exists, return (releasing the lock). -/
  | checkDone {s : SysState n} (i : Fin n)
      (h1 : s.pc i = .locked) (h2 : s.fs.done = true) :
      Step c σ s { s with lock := none,
                          pc := Function.update s.pc i (.finished (.ok ())) }
  /-- guard.py lines 111-118: failed marker exists, raise `RuntimeError`
  embedding its recorded text (releasing the lock). -/
  | checkFailed {s : SysState n} (i : Fin n) (m : String)
      (h1 : s.pc i = .locked) (h2 : s.fs.done = false) (h3 : s.fs.failed = some m) :
      Step c σ s { s with lock := none,
                          pc := Function.update s.pc i
                            (.finished (.error (.priorFailure c.name m))) }
  /-- guard.py line 122: neither marker exists, start running `fn`. -/
  | beginRun {s : SysState n} (i : Fin n)
      (h1 : s.pc i = .locked) (h2 : s.fs.done = false) (h3 : s.fs.failed = none) :
      Step c σ s { s with pc := Function.update s.pc i .running }
  /-- guard.py lines 122-123: `fn()` returns, write the done marker,
  release the lock, return. -/
  | finishOk {s : SysState n} (i : Fin n)
      (h1 : s.pc i = .running) (h2 : σ = .ok ()) :
      Step c σ s { s with lock := none, fs := { s.fs with done := true },
                          execCount := s.execCount + 1,
                          pc := Function.update s.pc i (.finished (.ok ())) }
  /-- guard.py lines 125-127: `fn()` raises `e`, write the failed marker
  with `str(e)`, release the lock, re-raise. -/
  | finishErr {s : SysState n} (i : Fin n) (e : String)
      (h1 : s.pc i = .running) (h2 : σ = .error e) :
      Step c σ s { s with lock := none, fs := { s.fs with failed := some e },
                          execCount := s.execCount + 1,
                          pc := Function.update s.pc i
                            (.finished (.error (.opError e))) }

inductive Reachable (c : CallOnce) (σ : Except String Unit) {n : Nat} :
    SysState n → Prop
  | init : Reachable c σ (initState n)
  | step {s s' : SysState n} :
      Reachable c σ s → Step c σ s s' → Reachable c σ s'

/-- A caller's observed result agrees with the sole execution's outcome: on
success everybody returns normally; on failure the executor re-raises the
original error and every other caller raises the `PriorFailure` error
embedding the same recorded description. -/
def ResultOK (c : CallOnce) (σ : Except String Unit)
    (r : Except GuardError Unit) : Prop :=
  (σ = .ok () ∧ r = .ok ()) ∨
    ∃ e, σ = .error e ∧
      (r = .error (.opError e) ∨ r = .error (.priorFailure c.name e))

/-- Inductive invariant of the interleaving model. -/
def Inv (c : CallOnce) (σ : Except String Unit) {n : Nat} (s : SysState n) : Prop :=
  (∀ i, (s.pc i = .locked ∨ s.pc i = .running) → s.lock = some i) ∧
  (s.fs.done = true ↔ σ = .ok () ∧ s.execCount = 1) ∧
  (∀ m, s.fs.failed = some m ↔ σ = .error m ∧ s.execCount = 1) ∧
  s.execCount ≤ 1 ∧
  (∀ i, s.pc i = .running → s.execCount = 0) ∧
  (∀ i r, s.pc i = .finished r → s.execCount = 1 ∧ ResultOK c σ r)

/-! Concrete single-caller run used to exercise the interleaving model:
acquire, find no markers, run the callable (which succeeds), write the done
marker, release. -/

def demoC : CallOnce := { path := "build", name := "compile" }

def demoFinal : SysState 1 :=
  { lock := none, fs := { done := true, failed := none }, execCount := 0 + 1,
    pc := Function.update (Function.update (Function.update
      (fun _ : Fin 1 => PC.idle) 0 PC.locked) 0 PC.running) 0
      (PC.finished (Except.ok ())) }

lemma inv_init (c : CallOnce) (σ : Except String Unit) (n : Nat) :
    Inv c σ (initState n) := by
  refine ⟨?_, ?_, ?_, ?_, ?_, ?_⟩
  · intro i hi; rcases hi with h | h <;> simp [initState] at h
  · simp [initState]
  · intro m; simp [initState]
  · simp [initState]
  · intro i h; simp [initState] at h
  · intro i r h; simp [initState] at h

/-- Evaluate `Function.update` away at an index other than the updated one
(stated over `PC` maps; the hypothesis may be a record-literal projection,
which is definitionally the update application). -/
lemma update_ne_elim {n : Nat} {f : Fin n → PC} {i j : Fin n} {v w : PC}
    (hij : j ≠ i) (h : Function.update f i v j = w) : f j = w :=
  (Function.update_noteq hij v f).symm.trans h

/-- Evaluate `Function.update` away at the updated index. -/
lemma update_eq_elim {n : Nat} {f : Fin n → PC} {i : Fin n} {v w : PC}
    (h : Function.update f i v i = w) : v = w :=
  (Function.update_same i v f).symm.trans h

lemma step_preserves_inv {n : Nat} {c : CallOnce} {σ : Except String Unit}
    {s s' : SysState n} (hs : Step c σ s s') (hinv : Inv c σ s) : Inv c σ s' := by
  obtain ⟨hlock, hdone, hfail, hexec, hrun, hfin⟩ := hinv
  cases hs with
  | acquire i h1 h2 =>
      refine ⟨?_, hdone, hfail, hexec, ?_, ?_⟩
      · intro j hj
        rcases eq_or_ne j i with rfl | hij
        · rfl
        · have hj' : s.pc j = PC.locked ∨ s.pc j = PC.running := by
            rcases hj with h | h
            · exact Or.inl (update_ne_elim hij h)
            · exact Or.inr (update_ne_elim hij h)
          have := hlock j hj'
          rw [h2] at this
          exact Option.noConfusion this
      · intro j hj
        rcases eq_or_ne j i with rfl | hij
        · exact PC.noConfusion (update_eq_elim hj)
        · exact hrun j (update_ne_elim hij hj)
      · intro j r hj
        rcases eq_or_ne j i with rfl | hij
        · exact PC.noConfusion (update_eq_elim hj)
        · exact hfin j r (update_ne_elim hij hj)
  | checkDone i h1 h2 =>
      obtain ⟨hσ, hex1⟩ := hdone.mp h2
      refine ⟨?_, hdone, hfail, hexec, ?_, ?_⟩
      · intro j hj
        rcases eq_or_ne j i with rfl | hij
        · rcases hj with h | h <;> exact PC.noConfusion (update_eq_elim h)
        · have hj' : s.pc j = PC.locked ∨ s.pc j = PC.running := by
            rcases hj with h | h
            · exact Or.inl (update_ne_elim hij h)
            · exact Or.inr (update_ne_elim hij h)
          have hj2 := hlock j hj'
          have hi2 := hlock i (Or.inl h1)
          rw [hj2] at hi2
          exact absurd (Option.some.inj hi2) hij
      · intro j hj
        rcases eq_or_ne j i with rfl | hij
        · exact PC.noConfusion (update_eq_elim hj)
        · exact hrun j (update_ne_elim hij hj)
      · intro j r hj
        rcases eq_or_ne j i with rfl | hij
        · have h' := update_eq_elim hj
          injection h' with h''
          subst h''
          exact ⟨hex1, Or.inl ⟨hσ, rfl⟩⟩
        · exact hfin j r (update_ne_elim hij hj)
  | checkFailed i m h1 h2 h3 =>
      obtain ⟨hσ, hex1⟩ := (hfail m).mp h3
      refine ⟨?_, hdone, hfail, hexec, ?_, ?_⟩
      · intro j hj
        rcases eq_or_ne j i with rfl | hij
        · rcases hj with h | h <;> exact PC.noConfusion (update_eq_elim h)
        · have hj' : s.pc j = PC.locked ∨ s.pc j = PC.running := by
            rcases hj with h | h
            · exact Or.inl (update_ne_elim hij h)
            · exact Or.inr (update_ne_elim hij h)
          have hj2 := hlock j hj'
          have hi2 := hlock i (Or.inl h1)
          rw [hj2] at hi2
          exact absurd (Option.some.inj hi2) hij
      · intro j hj
        rcases eq_or_ne j i with rfl | hij
        · exact PC.noConfusion (update_eq_elim hj)
        · exact hrun j (update_ne_elim hij hj)
      · intro j r hj
        rcases eq_or_ne j i with rfl | hij
        · have h' := update_eq_elim hj
          injection h' with h''
          subst h''
          exact ⟨hex1, Or.inr ⟨m, hσ, Or.inr rfl⟩⟩
        · exact hfin j r (update_ne_elim hij hj)
  | beginRun i h1 h2 h3 =>
      have hex0 : s.execCount = 0 := by
        by_contra hne
        have h1' : s.execCount = 1 := by omega
        cases σ with
        | ok u =>
            cases u
            have hd : s.fs.done = true := hdone.mpr ⟨rfl, h1'⟩
            rw [hd] at h2
            exact Bool.noConfusion h2
        | error e =>
            have hf : s.fs.failed = some e := (hfail e).mpr ⟨rfl, h1'⟩
            rw [hf] at h3
            exact Option.noConfusion h3
      refine ⟨?_, hdone, hfail, hexec, ?_, ?_⟩
      · intro j hj
        rcases eq_or_ne j i with rfl | hij
        · exact hlock j (Or.inl h1)
        · have hj' : s.pc j = PC.locked ∨ s.pc j = PC.running := by
            rcases hj with h | h
            · exact Or.inl (update_ne_elim hij h)
            · exact Or.inr (update_ne_elim hij h)
          exact hlock j hj'
      · intro j hj
        rcases eq_or_ne j i with rfl | hij
        · exact hex0
        · exact hrun j (update_ne_elim hij hj)
      · intro j r hj
        rcases eq_or_ne j i with rfl | hij
        · exact PC.noConfusion (update_eq_elim hj)
        · exact hfin j r (update_ne_elim hij hj)
  | finishOk i h1 h2 =>
      have hex0 : s.execCount = 0 := hrun i h1
      have hfail0 : s.fs.failed = none := by
        cases hf : s.fs.failed with
        | none => rfl
        | some m =>
            have := ((hfail m).mp hf).2
            omega
      refine ⟨?_, ?_, ?_, ?_, ?_, ?_⟩
      · intro j hj
        rcases eq_or_ne j i with rfl | hij
        · rcases hj with h | h <;> exact PC.noConfusion (update_eq_elim h)
        · have hj' : s.pc j = PC.locked ∨ s.pc j = PC.running := by
            rcases hj with h | h
            · exact Or.inl (update_ne_elim hij h)
            · exact Or.inr (update_ne_elim hij h)
          have hj2 := hlock j hj'
          have hi2 := hlock i (Or.inr h1)
          rw [hj2] at hi2
          exact absurd (Option.some.inj hi2) hij
      · exact ⟨fun _ => ⟨h2, show s.execCount + 1 = 1 by omega⟩, fun _ => rfl⟩
      · intro m
        constructor
        · intro hm
          have hm' : s.fs.failed = some m := hm
          rw [hfail0] at hm'
          exact Option.noConfusion hm'
        · rintro ⟨hσ, -⟩
          rw [h2] at hσ
          exact Except.noConfusion hσ
      · show s.execCount + 1 ≤ 1
        omega
      · intro j hj
        rcases eq_or_ne j i with rfl | hij
        · exact PC.noConfusion (update_eq_elim hj)
        · have hj2 := hlock j (Or.inr (update_ne_elim hij hj))
          have hi2 := hlock i (Or.inr h1)
          rw [hj2] at hi2
          exact absurd (Option.some.inj hi2) hij
      · intro j r hj
        rcases eq_or_ne j i with rfl | hij
        · have h' := update_eq_elim hj
          injection h' with h''
          subst h''
          exact ⟨show s.execCount + 1 = 1 by omega, Or.inl ⟨h2, rfl⟩⟩
        · have := (hfin j r (update_ne_elim hij hj)).1
          omega
  | finishErr i e h1 h2 =>
      have hex0 : s.execCount = 0 := hrun i h1
      have hdone0 : s.fs.done = false := by
        cases hd : s.fs.done with
        | false => rfl
        | true =>
            have := (hdone.mp hd).2
            omega
      refine ⟨?_, ?_, ?_, ?_, ?_, ?_⟩
      · intro j hj
        rcases eq_or_ne j i with rfl | hij
        · rcases hj with h | h <;> exact PC.noConfusion (update_eq_elim h)
        · have hj' : s.pc j = PC.locked ∨ s.pc j = PC.running := by
            rcases hj with h | h
            · exact Or.inl (update_ne_elim hij h)
            · exact Or.inr (update_ne_elim hij h)
          have hj2 := hlock j hj'
          have hi2 := hlock i (Or.inr h1)
          rw [hj2] at hi2
          exact absurd (Option.some.inj hi2) hij
      · constructor
        · intro hd
          have hd' : s.fs.done = true := hd
          rw [hdone0] at hd'
          exact Bool.noConfusion hd'
        · rintro ⟨hσ, -⟩
          rw [h2] at hσ
          exact Except.noConfusion hσ
      · intro m
        constructor
        · intro hm
          have hm' : some e = some m := hm
          cases Option.some.inj hm'
          exact ⟨h2, show s.execCount + 1 = 1 by omega⟩
        · rintro ⟨hσ, -⟩
          rw [h2] at hσ
          cases Except.error.inj hσ
          rfl
      · show s.execCount + 1 ≤ 1
        omega
      · intro j hj
        rcases eq_or_ne j i with rfl | hij
        · exact PC.noConfusion (update_eq_elim hj)
        · have hj2 := hlock j (Or.inr (update_ne_elim hij hj))
          have hi2 := hlock i (Or.inr h1)
          rw [hj2] at hi2
          exact absurd (Option.some.inj hi2) hij
      · intro j r hj
        rcases eq_or_ne j i with rfl | hij
        · have h' := update_eq_elim hj
          injection h' with h''
          subst h''
          exact ⟨show s.execCount + 1 = 1 by omega, Or.inr ⟨e, h2, Or.inl rfl⟩⟩
        · have := (hfin j r (update_ne_elim hij hj)).1
          omega

lemma reachable_inv {n : Nat} {c : CallOnce} {σ : Except String Unit}
    {s : SysState n} (h : Reachable c σ s) : Inv c σ s := by
  induction h with
  | init => exact inv_init c σ n
  | step _ hs ih => exact step_preserves_inv hs ih

lemma demoFinal_reachable : Reachable demoC (Except.ok ()) demoFinal := by
  have h0 : Reachable demoC (Except.ok ()) (initState 1) := Reachable.init
  have h1 := Reachable.step h0 (Step.acquire 0 rfl rfl)
  have h2 := Reachable.step h1
    (Step.beginRun 0 (by simp [initState, Function.update_same]) rfl rfl)
  have h3 := Reachable.step h2
    (Step.finishOk 0 (by simp [initState, Function.update_same]) rfl)
  exact h3

/-! Helper facts about the `acquire` polling loop. -/

lemma acquireLoop_neg_no_timeout :
    ∀ attempts : List Attempt, acquireLoop none attempts ≠ .timedOut := by
  intro attempts
  induction attempts with
  | nil => simp [acquireLoop]
  | cons a rest ih =>
      cases hmk : a.mkdirOk with
      | true => simp [acquireLoop, hmk]
      | false =>
          cases hbr : a.breakOk with
          | true => simpa [acquireLoop, hmk, hbr] using ih
          | false => simpa [acquireLoop, hmk, hbr] using ih

lemma acquireLoop_acquired_mkdir (d : Option Rat) :
    ∀ attempts : List Attempt, acquireLoop d attempts = .acquired →
      ∃ a ∈ attempts, a.mkdirOk = true := by
  intro attempts
  induction attempts with
  | nil => intro h; exact absurd h (by simp [acquireLoop])
  | cons a rest ih =>
      intro h
      cases hmk : a.mkdirOk with
      | true => exact ⟨a, List.mem_cons_self a rest, hmk⟩
      | false =>
          cases hbr : a.breakOk with
          | true =>
              rw [show acquireLoop d (a :: rest) = acquireLoop d rest by
                simp [acquireLoop, hmk, hbr]] at h
              obtain ⟨b, hb, hbmk⟩ := ih h
              exact ⟨b, List.mem_cons_of_mem a hb, hbmk⟩
          | false =>
              cases d with
              | none =>
                  rw [show acquireLoop none (a :: rest) = acquireLoop none rest by
                    simp [acquireLoop, hmk, hbr]] at h
                  obtain ⟨b, hb, hbmk⟩ := ih h
                  exact ⟨b, List.mem_cons_of_mem a hb, hbmk⟩
              | some dd =>
                  rcases le_or_lt dd a.now with h3 | h3
                  · rw [show acquireLoop (some dd) (a :: rest) = .timedOut by
                      simp [acquireLoop, hmk, hbr, h3]] at h
                    exact absurd h (by simp)
                  · rw [show acquireLoop (some dd) (a :: rest) =
                        acquireLoop (some dd) rest by
                      simp [acquireLoop, hmk, hbr, not_le.mpr h3]] at h
                    obtain ⟨b, hb, hbmk⟩ := ih h
                    exact ⟨b, List.mem_cons_of_mem a hb, hbmk⟩

lemma acquireLoop_timedOut_elim (dd : Rat) :
    ∀ attempts : List Attempt, acquireLoop (some dd) attempts = .timedOut →
      ∃ a ∈ attempts, a.mkdirOk = false ∧ a.breakOk = false ∧ dd ≤ a.now := by
  intro attempts
  induction attempts with
  | nil => intro h; exact absurd h (by simp [acquireLoop])
  | cons a rest ih =>
      intro h
      cases hmk : a.mkdirOk with
      | true =>
          rw [show acquireLoop (some dd) (a :: rest) = .acquired by
            simp [acquireLoop, hmk]] at h
          exact absurd h (by simp)
      | false =>
          cases hbr : a.breakOk with
          | true =>
              rw [show acquireLoop (some dd) (a :: rest) =
                  acquireLoop (some dd) rest by
                simp [acquireLoop, hmk, hbr]] at h
              obtain ⟨b, hb, hrest⟩ := ih h
              exact ⟨b, List.mem_cons_of_mem a hb, hrest⟩
          | false =>
              rcases le_or_lt dd a.now with h3 | h3
              · exact ⟨a, List.mem_cons_self a rest, hmk, hbr, h3⟩
              · rw [show acquireLoop (some dd) (a :: rest) =
                    acquireLoop (some dd) rest by
                  simp [acquireLoop, hmk, hbr, not_le.mpr h3]] at h
                obtain ⟨b, hb, hrest⟩ := ih h
                exact ⟨b, List.mem_cons_of_mem a hb, hrest⟩

lemma acquireLoop_times_out (dd : Rat) :
    ∀ (pre : List Attempt) (a : Attempt) (post : List Attempt),
      (∀ b ∈ pre, b.mkdirOk = false) → a.mkdirOk = false → a.breakOk = false →
      dd ≤ a.now → acquireLoop (some dd) (pre ++ a :: post) = .timedOut := by
  intro pre
  induction pre with
  | nil =>
      intro a post _ hmk hbr hnow
      simp [acquireLoop, hmk, hbr, hnow]
  | cons b pre' ih =>
      intro a post hpre hmk hbr hnow
      have hb : b.mkdirOk = false := hpre b (List.mem_cons_self b pre')
      cases hbb : b.breakOk with
      | true =>
          rw [show acquireLoop (some dd) ((b :: pre') ++ a :: post) =
              acquireLoop (some dd) (pre' ++ a :: post) by
            simp [acquireLoop, hb, hbb]]
          exact ih a post (fun x hx => hpre x (List.mem_cons_of_mem b hx)) hmk hbr hnow
      | false =>
          rcases le_or_lt dd b.now with h3 | h3
          · simp [acquireLoop, hb, hbb, h3]
          · rw [show acquireLoop (some dd) ((b :: pre') ++ a :: post) =
                acquireLoop (some dd) (pre' ++ a :: post) by
              simp [acquireLoop, hb, hbb, not_le.mpr h3]]
            exact ih a post (fun x hx => hpre x (List.mem_cons_of_mem b hx)) hmk hbr hnow

/-! ## Claim theorems -/

/-- C1: For all N ≥ 1 concurrent callers invoking `CallOnce.ensure_done` with
the same base directory and operation name, the protected operation executes
exactly once, and once the sole executor finishes (all callers terminated)
every caller either returned successfully or observed the same recorded
failure: the executor re-raised the operation's error and every other caller
raised the `PriorFailure` error embedding the same recorded description. -/
theorem guard_exactly_once (c : CallOnce) (σ : Except String Unit) (n : Nat)
    (hn : 0 < n) (s : SysState n) (hr : Reachable c σ s)
    (hterm : ∀ i, ∃ r, s.pc i = PC.finished r) :
    s.execCount = 1 ∧ ∀ i r, s.pc i = PC.finished r → ResultOK c σ r := by
  have hinv := reachable_inv hr
  obtain ⟨r0, hr0⟩ := hterm ⟨0, hn⟩
  exact ⟨(hinv.2.2.2.2.2 _ r0 hr0).1, fun i r h => (hinv.2.2.2.2.2 i r h).2⟩

/-- C1 witness: a concrete terminated one-caller run with a succeeding
operation executed the operation exactly once and returned successfully. -/
theorem guard_exactly_once_witness :
    demoFinal.execCount = 1 ∧ ResultOK demoC (Except.ok ()) (Except.ok ()) := by
  have h := guard_exactly_once demoC (Except.ok ()) 1 (by omega) demoFinal
    demoFinal_reachable
    (by
      intro i
      have hi : i = 0 := Subsingleton.elim i 0
      subst hi
      exact ⟨Except.ok (), by simp [demoFinal, Function.update_same]⟩)
  exact ⟨h.1, h.2 0 (Except.ok ()) (by simp [demoFinal, Function.update_same])⟩

/-- C2: once the done marker exists, `ensure_done` returns normally without
invoking the operation and leaves the state unchanged, hence any number of
repeated calls (without `clean`) behaves the same. -/
theorem ensure_done_idempotent (c : CallOnce) (fn : Except String Unit)
    (st : GuardFS) (h : st.done = true) :
    ensureDoneBody c fn st =
      { st := st, result := .ok (), fnCalls := 0, trace := [] } ∧
    ∀ k : Nat, (fun s => (ensureDoneBody c fn s).st)^[k] st = st := by
  have hbody : ensureDoneBody c fn st =
      { st := st, result := .ok (), fnCalls := 0, trace := [] } := by
    simp [ensureDoneBody, h]
  refine ⟨hbody, fun k => Function.iterate_fixed ?_ k⟩
  show (ensureDoneBody c fn st).st = st
  rw [hbody]

/-- C2 witness. -/
theorem ensure_done_idempotent_witness :
    ensureDoneBody { path := "b", name := "op" } (Except.ok ())
        { done := true, failed := none } =
      { st := { done := true, failed := none }, result := .ok (), fnCalls := 0,
        trace := [] } :=
  (ensure_done_idempotent { path := "b", name := "op" } (Except.ok ())
    { done := true, failed := none } rfl).1

/-- C3: when a failed marker exists (and no done marker), `ensure_done`
raises the `PriorFailure` error embedding the description recorded in the
marker, without invoking the operation; the raised message is the
`RuntimeError` format string of guard.py lines 116-117. -/
theorem ensure_done_sticky_failure (c : CallOnce) (fn : Except String Unit)
    (st : GuardFS) (m : String) (hd : st.done = false) (hf : st.failed = some m) :
    ensureDoneBody c fn st =
      { st := st, result := .error (.priorFailure c.name m), fnCalls := 0,
        trace := [] } ∧
    (GuardError.priorFailure c.name m).message =
      "Previous execution of \x27" ++ c.name ++ "\x27 failed: " ++ m := by
  exact ⟨by simp [ensureDoneBody, hd, hf], rfl⟩

/-- C3 witness. -/
theorem ensure_done_sticky_failure_witness :
    ensureDoneBody { path := "b", name := "op" } (Except.ok ())
        { done := false, failed := some "boom" } =
      { st := { done := false, failed := some "boom" },
        result := .error (.priorFailure "op" "boom"), fnCalls := 0,
        trace := [] } :=
  (ensure_done_sticky_failure { path := "b", name := "op" } (Except.ok ())
    { done := false, failed := some "boom" } "boom" rfl rfl).1

/-- C4: when the operation raises, `ensure_done` creates the failed marker
containing the error's description and re-raises the original error; the
marker creation's syscall trace flushes both the marker file and its parent
directory (`_create_marker`, guard.py lines 28-37). -/
theorem ensure_done_records_failure (c : CallOnce) (st : GuardFS) (e : String)
    (hd : st.done = false) (hf : st.failed = none) :
    ensureDoneBody c (.error e) st =
      { st := { st with failed := some e }, result := .error (.opError e),
        fnCalls := 1, trace := createMarkerTrace c.failFile c.lockDir e } ∧
    FsAction.fsyncFile c.failFile ∈ createMarkerTrace c.failFile c.lockDir e ∧
    FsAction.fsyncDir c.lockDir ∈ createMarkerTrace c.failFile c.lockDir e := by
  refine ⟨by simp [ensureDoneBody, hd, hf], ?_, ?_⟩ <;>
    by_cases he : e = "" <;> simp [createMarkerTrace, he]

/-- C4 witness. -/
theorem ensure_done_records_failure_witness :
    FsAction.fsyncFile (CallOnce.failFile { path := "b", name := "op" }) ∈
      createMarkerTrace (CallOnce.failFile { path := "b", name := "op" })
        (CallOnce.lockDir { path := "b", name := "op" }) "compile error" ∧
    (ensureDoneBody { path := "b", name := "op" } (Except.error "compile error")
        { done := false, failed := none }).result =
      .error (.opError "compile error") := by
  have h := ensure_done_records_failure { path := "b", name := "op" }
    { done := false, failed := none } "compile error" rfl rfl
  exact ⟨h.2.1, by rw [h.1]⟩

/-- C5 counterexample to the claim's "raises LockTimeout if and only if the
configured timeout elapses before the atomic create succeeds": with timeout 5
(deadline 0 + 5), the first poll finds the lock held but breaks it as stale,
which retries immediately *without checking the deadline*; the second poll's
mkdir succeeds at monotonic time 11, after the timeout elapsed — yet
`acquire` returns acquired instead of raising `NFSLockTimeout`. -/
theorem acquire_timeout_iff_counterexample :
    NFSLock.acquire 5 0 [{ now := 10, mkdirOk := false, breakOk := true },
      { now := 11, mkdirOk := true, breakOk := false }] =
      AcquireResult.acquired ∧
    NFSLock.acquire 5 0 [{ now := 10, mkdirOk := false, breakOk := true },
      { now := 11, mkdirOk := true, breakOk := false }] ≠
      AcquireResult.timedOut ∧
    (0 : Rat) + 5 ≤ 10 ∧ (0 : Rat) + 5 ≤ 11 := by
  have hacq : NFSLock.acquire 5 0 [{ now := 10, mkdirOk := false, breakOk := true },
      { now := 11, mkdirOk := true, breakOk := false }] =
      AcquireResult.acquired := by
    norm_num [NFSLock.acquire, acquireLoop]
  exact ⟨hacq, by rw [hacq]; simp, by norm_num, by norm_num⟩

/-- C5 (amended): `acquire` polls until the mkdir succeeds; a negative
timeout never raises `NFSLockTimeout`; if it acquires, some poll's atomic
create succeeded; if it raises `NFSLockTimeout`, the timeout was
non-negative and some poll found the lock held, could not break it stale,
and observed the deadline passed; conversely the first such poll (with no
earlier mkdir success) does raise — but a successful stale break skips the
deadline check, so acquisition may still succeed after the timeout. -/
theorem acquire_timeout_spec (timeout t0 : Rat) (attempts : List Attempt) :
    (timeout < 0 → NFSLock.acquire timeout t0 attempts ≠ .timedOut) ∧
    (NFSLock.acquire timeout t0 attempts = .acquired →
      ∃ a ∈ attempts, a.mkdirOk = true) ∧
    (NFSLock.acquire timeout t0 attempts = .timedOut →
      0 ≤ timeout ∧ ∃ a ∈ attempts,
        a.mkdirOk = false ∧ a.breakOk = false ∧ t0 + timeout ≤ a.now) ∧
    (∀ pre a post, attempts = pre ++ a :: post →
      (∀ b ∈ pre, b.mkdirOk = false) → a.mkdirOk = false → a.breakOk = false →
      0 ≤ timeout → t0 + timeout ≤ a.now →
      NFSLock.acquire timeout t0 attempts = .timedOut) := by
  refine ⟨?_, ?_, ?_, ?_⟩
  · intro hneg
    unfold NFSLock.acquire
    rw [if_pos hneg]
    exact acquireLoop_neg_no_timeout attempts
  · intro hacq
    unfold NFSLock.acquire at hacq
    by_cases hneg : timeout < 0
    · rw [if_pos hneg] at hacq
      exact acquireLoop_acquired_mkdir none attempts hacq
    · rw [if_neg hneg] at hacq
      exact acquireLoop_acquired_mkdir _ attempts hacq
  · intro hto
    unfold NFSLock.acquire at hto
    by_cases hneg : timeout < 0
    · rw [if_pos hneg] at hto
      exact absurd hto (acquireLoop_neg_no_timeout attempts)
    · rw [if_neg hneg] at hto
      exact ⟨not_lt.mp hneg, acquireLoop_timedOut_elim _ attempts hto⟩
  · intro pre a post hsplit hpre hmk hbr ht hnow
    unfold NFSLock.acquire
    rw [if_neg (not_lt.mpr ht), hsplit]
    exact acquireLoop_times_out _ pre a post hpre hmk hbr hnow

/-- C5 witness: a negative timeout never times out; a held, unbreakable lock
past the deadline times out; a successful mkdir acquires. -/
theorem acquire_timeout_spec_witness :
    NFSLock.acquire (-1) 0 [{ now := 100, mkdirOk := false, breakOk := false }] ≠
      AcquireResult.timedOut ∧
    NFSLock.acquire 2 0 [{ now := 3, mkdirOk := false, breakOk := false }] =
      AcquireResult.timedOut ∧
    (∃ a ∈ [({ now := 0, mkdirOk := true, breakOk := false } : Attempt)],
      a.mkdirOk = true) ∧
    (0 ≤ (2 : Rat) ∧
      ∃ a ∈ [({ now := 3, mkdirOk := false, breakOk := false } : Attempt)],
        a.mkdirOk = false ∧ a.breakOk = false ∧ (0 : Rat) + 2 ≤ a.now) := by
  have hto : NFSLock.acquire 2 0
      [{ now := 3, mkdirOk := false, breakOk := false }] =
      AcquireResult.timedOut :=
    (acquire_timeout_spec 2 0 _).2.2.2 []
      { now := 3, mkdirOk := false, breakOk := false } [] rfl
      (fun b hb => absurd hb (List.not_mem_nil b)) rfl rfl (by norm_num)
      (by norm_num)
  refine ⟨(acquire_timeout_spec (-1) 0 _).1 (by norm_num), hto, ?_, ?_⟩
  · exact (acquire_timeout_spec 2 0 _).2.1
      (by norm_num [NFSLock.acquire, acquireLoop])
  · exact (acquire_timeout_spec 2 0 _).2.2.1 hto

/-- C6: when the holder record names the local host, the lock is stale
exactly when the `os.kill(pid, 0)` probe reports the recorded pid dead
(`ProcessLookupError`); a live process or a `PermissionError` means not
stale, and elapsed time plays no role. -/
theorem is_stale_same_host (localHost : String) (probe : Int → ProbeResult)
    (now staleTimeout : Rat) (info : HolderInfo)
    (h : info.hostname.getD "" = localHost) :
    (isStale localHost probe now staleTimeout info = true ↔
      probe (info.pid.getD (-1)) = .noSuchProcess) := by
  cases hp : probe (info.pid.getD (-1)) <;> simp [isStale, h, hp]

/-- C6 witness: a dead same-host pid is stale even with a fresh timestamp. -/
theorem is_stale_same_host_witness :
    isStale "hostA" (fun _ => ProbeResult.noSuchProcess) 100 7200
      { hostname := some "hostA", pid := some 42, timestamp := some 100 } =
      true :=
  (is_stale_same_host "hostA" (fun _ => ProbeResult.noSuchProcess) 100 7200
    { hostname := some "hostA", pid := some 42, timestamp := some 100 }
    rfl).mpr rfl

/-- C7: when the holder record names a different host, the lock is stale
exactly when `now - recorded_timestamp` strictly exceeds `stale_timeout`. -/
theorem is_stale_other_host (localHost : String) (probe : Int → ProbeResult)
    (now staleTimeout : Rat) (info : HolderInfo)
    (h : info.hostname.getD "" ≠ localHost) :
    (isStale localHost probe now staleTimeout info = true ↔
      staleTimeout < now - info.timestamp.getD 0) := by
  simp [isStale, h]

/-- C7 witness: a different-host lock 800 seconds past its stale timeout is
stale; (implicitly) before the timeout the same iff yields not stale. -/
theorem is_stale_other_host_witness :
    isStale "hostA" (fun _ => ProbeResult.ok) 8000 7200
      { hostname := some "hostB", pid := some 42, timestamp := some 0 } =
      true := by
  refine (is_stale_other_host "hostA" (fun _ => ProbeResult.ok) 8000 7200
    { hostname := some "hostB", pid := some 42, timestamp := some 0 }
    ?_).mpr ?_
  · simp
  · norm_num

/-- C8: `release` never raises: the holder unlink (missing_ok, suppressed)
and the rmdir (suppressed) always leave a state with no holder record and no
lock directory, from every starting state — including states a racing
stale-breaker already emptied. -/
theorem release_never_fails (st : LockDirState) :
    NFSLock.release st =
      Except.ok { holderPresent := false, dirPresent := false } := by
  obtain ⟨h, d⟩ := st
  cases h <;> cases d <;> rfl

/-- C9: at most one of the done/failed markers exists at any time;
`ensure_done` preserves this, never touches the state when a marker already
exists (no overwrite), and only `clean` removes the markers. -/
theorem guard_marker_invariant (c : CallOnce) (fn : Except String Unit)
    (st : GuardFS) (hinv : ¬(st.done = true ∧ st.failed.isSome = true)) :
    ¬((ensureDoneBody c fn st).st.done = true ∧
      (ensureDoneBody c fn st).st.failed.isSome = true) ∧
    (st.done = true → (ensureDoneBody c fn st).st = st) ∧
    (∀ m, st.failed = some m → (ensureDoneBody c fn st).st = st) ∧
    (c.clean st).done = false ∧ (c.clean st).failed = none := by
  obtain ⟨d, f⟩ := st
  cases d
  · cases f with
    | none =>
        cases fn with
        | ok u => cases u; simp [ensureDoneBody, CallOnce.clean]
        | error e => simp [ensureDoneBody, CallOnce.clean]
    | some m => simp [ensureDoneBody, CallOnce.clean]
  · cases f with
    | none => simp [ensureDoneBody, CallOnce.clean]
    | some m => exact absurd ⟨rfl, rfl⟩ hinv

/-- C9 witness. -/
theorem guard_marker_invariant_witness :
    ¬((ensureDoneBody { path := "b", name := "op" } (Except.ok ())
        { done := false, failed := none }).st.done = true ∧
      (ensureDoneBody { path := "b", name := "op" } (Except.ok ())
        { done := false, failed := none }).st.failed.isSome = true) ∧
    (CallOnce.clean { path := "b", name := "op" }
      { done := false, failed := none }).done = false := by
  have h := guard_marker_invariant { path := "b", name := "op" }
    (Except.ok ()) { done := false, failed := none } (by simp)
  exact ⟨h.1, h.2.2.2.1⟩

/-- C10: a holder record that parses as a JSON object lacking the hostname
and timestamp fields is returned by `_read_holder_info` (not treated as
unreadable); `_is_stale` substitutes the defaults `""` and `0.0`, so on any
host with a non-empty hostname the different-host branch applies and the
lock is stale exactly when `time.time()` exceeds `stale_timeout`; then
`_try_break_stale` breaks the lock (given the rmdir succeeds) instead of
falling back to polling. -/
theorem missing_fields_lock_breakable (localHost : String)
    (probe : Int → ProbeResult) (now staleTimeout : Rat) (pid : Option Int)
    (hl : localHost ≠ "") :
    readHolderInfo (.parsed { hostname := none, pid := pid, timestamp := none }) =
      some { hostname := none, pid := pid, timestamp := none } ∧
    (isStale localHost probe now staleTimeout
        { hostname := none, pid := pid, timestamp := none } = true ↔
      staleTimeout < now) ∧
    (staleTimeout < now →
      tryBreakStale localHost probe now staleTimeout
        (.parsed { hostname := none, pid := pid, timestamp := none }) true =
        true) := by
  have hne : ({ hostname := none, pid := pid, timestamp := none } :
      HolderInfo).hostname.getD "" ≠ localHost := by
    simpa using fun hh => hl hh.symm
  have hiff := is_stale_other_host localHost probe now staleTimeout
    { hostname := none, pid := pid, timestamp := none } hne
  refine ⟨rfl, ?_, ?_⟩
  · simpa using hiff
  · intro ht
    have hs : isStale localHost probe now staleTimeout
        { hostname := none, pid := pid, timestamp := none } = true := by
      rw [hiff]
      simpa using ht
    simp [tryBreakStale, readHolderInfo, hs]

/-- C10 witness: with hostname "hostA", a record `{"pid": 7}` (no hostname,
no timestamp) and wall-clock 9000 past a 7200 stale timeout is broken. -/
theorem missing_fields_lock_breakable_witness :
    tryBreakStale "hostA" (fun _ => ProbeResult.ok) 9000 7200
      (ReadOutcome.parsed { hostname := none, pid := some 7, timestamp := none })
      true = true := by
  have h := missing_fields_lock_breakable "hostA" (fun _ => ProbeResult.ok)
    9000 7200 (some 7) (by simp)
  exact h.2.2 (by norm_num)

end PytestCocotb
